import Mathlib

/-!
Verification of `batchTest.py`, the batch regression harness of tivolibre.

The harness is shallowly embedded: Python strings become `String` viewed as
lists of characters, the filesystem becomes an association list from paths to
abstract file contents (`Nat`), the external decoder and the external `diff`
utility become explicit oracles/functions, and a Python statement that raises
an uncaught exception becomes `Except.error`.
-/

namespace BatchTest

/-- Python `s.startswith(pre)`: character-sequence prefix test. -/
def pyStartswith (s pre : String) : Bool :=
  pre.data.isPrefixOf s.data

/-- Python `s.endswith(suf)`: character-sequence suffix test. -/
def pyEndswith (s suf : String) : Bool :=
  suf.data.isSuffixOf s.data

/-- Python `str.replace(old, new)` on character lists: scan left to right,
replacing every non-overlapping occurrence of `old` by `new`; when `old` is
empty, `new` is inserted before every character and at the end.  The `fuel`
argument only makes the recursion structural (each step consumes at least one
character, so any fuel at least the list length gives the scan's result). -/
def replaceFuel (old new : List Char) : Nat → List Char → List Char
  | _, [] => if old.isEmpty then new else []
  | 0, l => l
  | fuel + 1, c :: rest =>
    if old ≠ [] ∧ old.isPrefixOf (c :: rest) then
      new ++ replaceFuel old new fuel (List.drop old.length (c :: rest))
    else if old.isEmpty then
      new ++ c :: replaceFuel old new fuel rest
    else
      c :: replaceFuel old new fuel rest

/-- Python `s.replace(old, new)`. -/
def pyReplace (s old new : String) : String :=
  ⟨replaceFuel old.data new.data s.data.length s.data⟩

/-- Python `<` on strings, character by character, comparing code points.
`lexLe a b` is the reflexive (`≤`) version used by `list.sort`. -/
def lexLe : List Char → List Char → Bool
  | [], _ => true
  | _ :: _, [] => false
  | a :: as, b :: bs =>
    if a = b then lexLe as bs else decide (a.toNat < b.toNat)

/-- Python string comparison `a <= b` (lexicographic by code point). -/
def strLe (a b : String) : Bool :=
  lexLe a.data b.data

/-- `sourceFiles.sort()`: Python's lexicographic sort on the path strings. -/
def sortStrings (l : List String) : List String :=
  l.insertionSort (fun a b => strLe a b = true)

/-- The run configuration produced by `parseArgs` (`argparse`): the MAK,
the three file extensions, and the `--skip` count.  `--skip` has
`type=int`, so it can be any integer, including a negative one. -/
structure Config where
  mak : String
  sourceExtension : String
  ourExtension : String
  refExtension : String
  skip : Int
  deriving Repr, DecidableEq

/-- The configuration with the default extensions of `parseArgs`. -/
def defaultConfig : Config :=
  { mak := "0123456789"
    sourceExtension := ".TiVo"
    ourExtension := ".mpg"
    refExtension := ".ref.mpg"
    skip := 0 }

/-- The filesystem: an association list from full paths to file contents.
Contents are abstracted to `Nat`; two files are byte-for-byte identical
exactly when their contents are equal. -/
abbrev FS := List (String × Nat)

/-- Content of the file at path `p`, if it exists. -/
def lookupFS : FS → String → Option Nat
  | [], _ => none
  | (q, c) :: rest, p => if q = p then some c else lookupFS rest p

/-- Python `os.path.isfile(p)`. -/
def isFile (fs : FS) (p : String) : Bool :=
  (lookupFS fs p).isSome

/-- Remove every entry at path `p`. -/
def removeFS (fs : FS) (p : String) : FS :=
  fs.filter (fun e => e.1 != p)

/-- Create/overwrite the file at path `p` with content `c`. -/
def writeFS (fs : FS) (p : String) (c : Nat) : FS :=
  (p, c) :: removeFS fs p

/-- Python `os.remove(p)`: deletes the file, or raises `FileNotFoundError`
(modelled as `Except.error ()`) when no file exists at `p`. -/
def removeFileOrError (fs : FS) (p : String) : Except Unit FS :=
  if isFile fs p then Except.ok (removeFS fs p) else Except.error ()

/-- Python `os.path.join(path, name)` as used on the pairs produced by
`os.walk` (POSIX rules). -/
def osPathJoin (p n : String) : String :=
  if pyStartswith n "/" then n
  else if p = "" then n
  else if pyEndswith p "/" then p ++ n
  else p ++ "/" ++ n

/-- `BatchTester.isTivoFile`: `not name.startswith('.') and
name.endswith(self.args.sourceExtension)`. -/
def isTivoFile (cfg : Config) (name : String) : Bool :=
  !(pyStartswith name ".") && pyEndswith name cfg.sourceExtension

/-- `BatchTester.listSourceFiles`.  `os.walk` is modelled by its enumeration:
the list of `(dirpath, filename)` pairs it yields, in whatever order the
operating system produces them.  The function keeps the names accepted by
`isTivoFile`, joins each onto its directory, and sorts the result. -/
def listSourceFiles (cfg : Config) (walk : List (String × String)) : List String :=
  sortStrings ((walk.filter (fun e => isTivoFile cfg e.2)).map (fun e => osPathJoin e.1 e.2))

/-- The external decoder (`java -jar tivo-libre.jar -m mak -i in -o out`),
as an oracle: given the input path and the output path, the content it
writes at the output path, or `none` when it produces no output file.
The harness never inspects its exit status. -/
def Decoder : Type :=
  String → String → Option Nat

/-- `outputPath = inputPath.replace(self.args.sourceExtension, self.args.ourExtension)`. -/
def outputPathOf (cfg : Config) (inputPath : String) : String :=
  pyReplace inputPath cfg.sourceExtension cfg.ourExtension

/-- `referencePath = outputPath.replace(self.args.ourExtension, self.args.refExtension)`. -/
def referencePathOf (cfg : Config) (inputPath : String) : String :=
  pyReplace (outputPathOf cfg inputPath) cfg.ourExtension cfg.refExtension

/-- The filesystem after the pre-step of `decodeFile`:
`if os.path.isfile(outputPath): os.remove(outputPath)`. -/
def fsBeforeDecode (cfg : Config) (fs : FS) (inputPath : String) : FS :=
  if isFile fs (outputPathOf cfg inputPath) then
    removeFS fs (outputPathOf cfg inputPath)
  else fs

/-- The filesystem after the decoder invocation: the decoder writes at the
output path whatever the oracle says, or leaves the filesystem alone when it
produces no output. -/
def fsAfterDecode (cfg : Config) (dec : Decoder) (fs : FS) (inputPath : String) : FS :=
  match dec inputPath (outputPathOf cfg inputPath) with
  | some c => writeFS (fsBeforeDecode cfg fs inputPath) (outputPathOf cfg inputPath) c
  | none => fsBeforeDecode cfg fs inputPath

/-- The external `diff a b`: return code 0 when both files exist with equal
content, 1 when both exist but differ, 2 (trouble) when either is missing. -/
def diffReturncode (fs : FS) (a b : String) : Nat :=
  match lookupFS fs a, lookupFS fs b with
  | some ca, some cb => if ca = cb then 0 else 1
  | _, _ => 2

/-- `BatchTester.decodeFile`.  Returns the `filesAreSame` boolean, the new
filesystem and the incremented `filesTested` counter; the final
`os.remove(outputPath)` raises (`Except.error`) when the decoder produced no
output file, which propagates out of the per-file cycle. -/
def decodeFile (cfg : Config) (dec : Decoder) (fs : FS) (inputPath : String)
    (filesTested : Nat) : Except Unit (Bool × FS × Nat) :=
  let filesTested1 := filesTested + 1
  let outputPath := outputPathOf cfg inputPath
  let fs2 := fsAfterDecode cfg dec fs inputPath
  let referencePath := referencePathOf cfg inputPath
  let ret := diffReturncode fs2 outputPath referencePath
  let filesAreSame := if ret ≠ 0 then false else true
  match removeFileOrError fs2 outputPath with
  | Except.error e => Except.error e
  | Except.ok fs3 => Except.ok (filesAreSame, fs3, filesTested1)

/-- The `for filePath in tivoFiles` loop of `BatchTester.testFilesInDir`,
threading `numSkipped`, the filesystem and the `filesTested` counter, and
accumulating `perfectFiles` and `filesWithDifferences` in processing order.
An exception raised by `decodeFile` aborts the whole loop. -/
def runFiles (cfg : Config) (dec : Decoder) :
    List String → Int → FS → Nat → Except Unit (List String × List String × FS × Nat)
  | [], _, fs, tested => Except.ok ([], [], fs, tested)
  | filePath :: rest, numSkipped, fs, tested =>
    if cfg.skip ≤ numSkipped then
      match decodeFile cfg dec fs filePath tested with
      | Except.error e => Except.error e
      | Except.ok (same, fs1, tested1) =>
        match runFiles cfg dec rest numSkipped fs1 tested1 with
        | Except.error e => Except.error e
        | Except.ok (perfectFiles, filesWithDifferences, fs2, tested2) =>
          if same then
            Except.ok (filePath :: perfectFiles, filesWithDifferences, fs2, tested2)
          else
            Except.ok (perfectFiles, filePath :: filesWithDifferences, fs2, tested2)
    else
      runFiles cfg dec rest (numSkipped + 1) fs tested

/-- `BatchTester.testFilesInDir`: discover, then loop with `numSkipped = 0`
and `filesTested = 0`. -/
def testFilesInDir (cfg : Config) (dec : Decoder) (walk : List (String × String))
    (fs : FS) : Except Unit (List String × List String × FS × Nat) :=
  runFiles cfg dec (listSourceFiles cfg walk) 0 fs 0

/-- Reference processor with no skip logic: decode, compare and record every
file of the list.  Used to state what the skip count excludes. -/
def processFiles (cfg : Config) (dec : Decoder) :
    List String → FS → Nat → Except Unit (List String × List String × FS × Nat)
  | [], fs, tested => Except.ok ([], [], fs, tested)
  | filePath :: rest, fs, tested =>
    match decodeFile cfg dec fs filePath tested with
    | Except.error e => Except.error e
    | Except.ok (same, fs1, tested1) =>
      match processFiles cfg dec rest fs1 tested1 with
      | Except.error e => Except.error e
      | Except.ok (perfectFiles, filesWithDifferences, fs2, tested2) =>
        if same then
          Except.ok (filePath :: perfectFiles, filesWithDifferences, fs2, tested2)
        else
          Except.ok (perfectFiles, filePath :: filesWithDifferences, fs2, tested2)

/-- ANSI codes of class `bcolors`. -/
def OKBLUE : String := "\x1B[94m"

/-- ANSI codes of class `bcolors`. -/
def OKGREEN : String := "\x1B[92m"

/-- ANSI codes of class `bcolors`. -/
def FAIL : String := "\x1B[91m"

/-- ANSI codes of class `bcolors`. -/
def ENDC : String := "\x1B[0m"

/-- Helper for Python's `"{:,d}"` format: insert a comma after every three
digits, working on the digit list written least-significant first. -/
def insertCommas : List Char → List Char
  | a :: b :: c :: d :: rest => a :: b :: c :: ',' :: insertCommas (d :: rest)
  | l => l

/-- Python `"{:,d}".format(n)` for a natural number: decimal digits grouped
in threes by commas. -/
def commaFormat (n : Nat) : String :=
  ⟨(insertCommas (Nat.toDigits 10 n).reverse).reverse⟩

/-- `BatchTester.printResults`, as the list of lines it prints (one entry
per `print` call).  A section is emitted only when its list is non-empty
(Python truthiness of a list). -/
def printResults (perfectFiles filesWithDifferences : List String) : List String :=
  (if perfectFiles.isEmpty then [] else
    ("\nPerfectly decoded " ++ commaFormat perfectFiles.length ++ " file" ++
        (if perfectFiles.length > 1 then "s" else "") ++ ":" ++ OKGREEN)
      :: (perfectFiles.map (fun filePath => "\t" ++ filePath) ++ [ENDC]))
  ++
  (if filesWithDifferences.isEmpty then [] else
    ("Need to fix " ++ commaFormat filesWithDifferences.length ++ " file" ++
        (if filesWithDifferences.length > 1 then "s" else "") ++ ":" ++ FAIL)
      :: (filesWithDifferences.map (fun filePath => "\t" ++ filePath) ++ [ENDC]))

/-! ### Helper lemmas about the filesystem model -/

theorem lookupFS_removeFS_self (fs : FS) (p : String) :
    lookupFS (removeFS fs p) p = none := by
  induction fs with
  | nil => rfl
  | cons e rest ih =>
    obtain ⟨q, c⟩ := e
    simp only [removeFS, List.filter_cons]
    by_cases h : q = p
    · simp only [h, bne_self_eq_false]
      exact ih
    · have hb : (q != p) = true := by simp [bne, h]
      simp only [hb, if_true]
      simp only [lookupFS, if_neg h]
      exact ih

theorem lookupFS_writeFS_self (fs : FS) (p : String) (c : Nat) :
    lookupFS (writeFS fs p c) p = some c := by
  simp [writeFS, lookupFS]

theorem lookupFS_fsBeforeDecode (cfg : Config) (fs : FS) (inputPath : String) :
    lookupFS (fsBeforeDecode cfg fs inputPath) (outputPathOf cfg inputPath) = none := by
  unfold fsBeforeDecode
  by_cases h : isFile fs (outputPathOf cfg inputPath) = true
  · rw [if_pos h]
    exact lookupFS_removeFS_self fs _
  · rw [if_neg h]
    unfold isFile at h
    cases hl : lookupFS fs (outputPathOf cfg inputPath) with
    | none => rfl
    | some c => rw [hl] at h; simp at h

theorem lookupFS_fsAfterDecode (cfg : Config) (dec : Decoder) (fs : FS) (inputPath : String) :
    lookupFS (fsAfterDecode cfg dec fs inputPath) (outputPathOf cfg inputPath)
      = dec inputPath (outputPathOf cfg inputPath) := by
  unfold fsAfterDecode
  cases hd : dec inputPath (outputPathOf cfg inputPath) with
  | none => exact lookupFS_fsBeforeDecode cfg fs inputPath
  | some c => exact lookupFS_writeFS_self _ _ _

/-! ### Helper lemmas about the lexicographic string order -/

theorem char_toNat_inj {a b : Char} (h : a.toNat = b.toNat) : a = b := by
  have h2 := congrArg Char.ofNat h
  rwa [Char.ofNat_toNat, Char.ofNat_toNat] at h2

theorem lexLe_total (a : List Char) : ∀ b, lexLe a b = true ∨ lexLe b a = true := by
  induction a with
  | nil => intro b; left; rfl
  | cons x xs ih =>
    intro b
    cases b with
    | nil => right; rfl
    | cons y ys =>
      by_cases hxy : x = y
      · subst hxy
        simpa [lexLe] using ih ys
      · have hyx : ¬ y = x := fun h => hxy h.symm
        have htn : x.toNat ≠ y.toNat := fun h => hxy (char_toNat_inj h)
        simp only [lexLe, if_neg hxy, if_neg hyx, decide_eq_true_eq]
        omega

theorem lexLe_trans (a : List Char) : ∀ b c, lexLe a b = true → lexLe b c = true →
    lexLe a c = true := by
  induction a with
  | nil => intro b c _ _; rfl
  | cons x xs ih =>
    intro b c h1 h2
    cases b with
    | nil => simp [lexLe] at h1
    | cons y ys =>
      cases c with
      | nil => simp [lexLe] at h2
      | cons z zs =>
        by_cases hxy : x = y <;> by_cases hyz : y = z
        · subst hxy; subst hyz
          simp only [lexLe, if_pos rfl] at h1 h2 ⊢
          exact ih ys zs h1 h2
        · subst hxy
          simp only [lexLe, if_pos rfl, if_neg hyz] at h1 h2 ⊢
          exact h2
        · subst hyz
          simp only [lexLe, if_pos rfl, if_neg hxy] at h1 h2 ⊢
          exact h1
        · simp only [lexLe, if_neg hxy, if_neg hyz, decide_eq_true_eq] at h1 h2
          have hxz : ¬ x = z := by
            intro h
            subst h
            omega
          simp only [lexLe, if_neg hxz, decide_eq_true_eq]
          omega

theorem lexLe_antisymm (a : List Char) : ∀ b, lexLe a b = true → lexLe b a = true →
    a = b := by
  induction a with
  | nil =>
    intro b _ h2
    cases b with
    | nil => rfl
    | cons y ys => simp [lexLe] at h2
  | cons x xs ih =>
    intro b h1 h2
    cases b with
    | nil => simp [lexLe] at h1
    | cons y ys =>
      by_cases hxy : x = y
      · subst hxy
        simp only [lexLe, if_pos rfl] at h1 h2
        rw [ih ys h1 h2]
      · have hyx : ¬ y = x := fun h => hxy h.symm
        simp only [lexLe, if_neg hxy, if_neg hyx, decide_eq_true_eq] at h1 h2
        omega

instance : IsTotal String (fun a b => strLe a b = true) :=
  ⟨fun a b => lexLe_total a.data b.data⟩

instance : IsTrans String (fun a b => strLe a b = true) :=
  ⟨fun a b c h1 h2 => lexLe_trans a.data b.data c.data h1 h2⟩

instance : IsAntisymm String (fun a b => strLe a b = true) :=
  ⟨fun a b h1 h2 => by
    cases a with
    | mk da =>
      cases b with
      | mk db => exact congrArg String.mk (lexLe_antisymm da db h1 h2)⟩

theorem sortStrings_perm (l : List String) : (sortStrings l).Perm l :=
  List.perm_insertionSort _ l

theorem sortStrings_sorted (l : List String) :
    (sortStrings l).Sorted (fun a b => strLe a b = true) :=
  List.sorted_insertionSort _ l

theorem sortStrings_eq_of_perm {l₁ l₂ : List String} (h : l₁.Perm l₂) :
    sortStrings l₁ = sortStrings l₂ :=
  List.eq_of_perm_of_sorted
    ((sortStrings_perm l₁).trans (h.trans (sortStrings_perm l₂).symm))
    (sortStrings_sorted l₁) (sortStrings_sorted l₂)

/-! ### Helper lemmas about Python `str.replace` -/

theorem isPrefixOf_self (l : List Char) : l.isPrefixOf l = true := by
  induction l with
  | nil => rfl
  | cons c rest ih => simp [List.isPrefixOf, ih]

theorem replaceFuel_nil_of_ne (old new : List Char) (h : old ≠ []) (fuel : Nat) :
    replaceFuel old new fuel [] = [] := by
  cases fuel <;> simp [replaceFuel, List.isEmpty_iff, h]

/-- When `old` occurs in `stem ++ old` only as the trailing suffix,
`str.replace` rewrites exactly that occurrence and nothing else. -/
theorem replaceFuel_append_suffix (old new : List Char) (hold : old ≠ []) :
    ∀ (stem : List Char) (fuel : Nat), (stem ++ old).length ≤ fuel →
      (∀ i, i < stem.length → old.isPrefixOf ((stem ++ old).drop i) = false) →
      replaceFuel old new fuel (stem ++ old) = stem ++ new := by
  intro stem
  induction stem with
  | nil =>
    intro fuel hfuel _
    simp only [List.nil_append] at hfuel ⊢
    obtain ⟨c, rest, hco⟩ := List.exists_cons_of_ne_nil hold
    subst hco
    cases fuel with
    | zero => simp at hfuel
    | succ f =>
      simp only [replaceFuel]
      rw [if_pos ⟨hold, isPrefixOf_self _⟩]
      rw [List.drop_length, replaceFuel_nil_of_ne _ new hold, List.append_nil]
  | cons c stem' ih =>
    intro fuel hfuel hstem
    have h0 := hstem 0 (by simp)
    simp only [List.cons_append, List.drop_zero] at h0
    simp only [List.cons_append] at hfuel ⊢
    cases fuel with
    | zero => simp at hfuel
    | succ f =>
      simp only [replaceFuel]
      rw [if_neg (by simp [h0])]
      rw [if_neg (by simp [List.isEmpty_iff, hold])]
      have ih2 := ih f (by simp only [List.length_cons] at hfuel; omega) (fun i hi => by
        have h3 := hstem (i + 1) (by simpa using Nat.succ_lt_succ hi)
        simpa using h3)

      rw [ih2]

/-! ### Helper lemmas about the per-file loop -/

theorem decodeFile_ok_inv {cfg : Config} {dec : Decoder} {fs : FS} {inputPath : String}
    {tested : Nat} {b : Bool} {fs' : FS} {t' : Nat}
    (h : decodeFile cfg dec fs inputPath tested = Except.ok (b, fs', t')) :
    t' = tested + 1 ∧
      b = (if diffReturncode (fsAfterDecode cfg dec fs inputPath)
              (outputPathOf cfg inputPath) (referencePathOf cfg inputPath) ≠ 0
           then false else true) := by
  dsimp only [decodeFile] at h
  split at h
  · exact absurd h (by simp)
  · rename_i fs3 heq
    injection h with h1
    injection h1 with hb h2
    injection h2 with hfs ht
    exact ⟨ht.symm, hb.symm⟩

theorem processFiles_ok_inv (cfg : Config) (dec : Decoder) :
    ∀ (files : List String) (fs : FS) (tested : Nat)
      (perf diff : List String) (fs' : FS) (t' : Nat),
      processFiles cfg dec files fs tested = Except.ok (perf, diff, fs', t') →
      (perf ++ diff).Perm files ∧ t' = tested + files.length := by
  intro files
  induction files with
  | nil =>
    intro fs tested perf diff fs' t' h
    simp only [processFiles] at h
    injection h with h1
    injection h1 with hperf h2
    injection h2 with hdiff h3
    injection h3 with hfs ht
    subst hperf; subst hdiff; subst ht
    exact ⟨by simp, by simp⟩
  | cons filePath rest ih =>
    intro fs tested perf diff fs' t' h
    simp only [processFiles] at h
    cases hd : decodeFile cfg dec fs filePath tested with
    | error e => simp only [hd] at h; exact Except.noConfusion h
    | ok triple =>
      obtain ⟨same, fs1, tested1⟩ := triple
      simp only [hd] at h
      cases hr : processFiles cfg dec rest fs1 tested1 with
      | error e => simp only [hr] at h; exact Except.noConfusion h
      | ok quad =>
        obtain ⟨perf1, diff1, fs2, tested2⟩ := quad
        simp only [hr] at h
        obtain ⟨hperm, ht⟩ := ih fs1 tested1 perf1 diff1 fs2 tested2 hr
        have ht1 : tested1 = tested + 1 := (decodeFile_ok_inv hd).1
        cases same with
        | true =>
          rw [if_pos rfl] at h
          injection h with h1
          injection h1 with hperf h2
          injection h2 with hdiff h3
          injection h3 with hfs ht'
          subst hperf; subst hdiff; subst ht'
          constructor
          · simpa using hperm.cons filePath
          · simp only [List.length_cons]
            omega
        | false =>
          rw [if_neg (by simp)] at h
          injection h with h1
          injection h1 with hperf h2
          injection h2 with hdiff h3
          injection h3 with hfs ht'
          subst hperf; subst hdiff; subst ht'
          constructor
          · exact List.Perm.trans List.perm_middle (hperm.cons filePath)
          · simp only [List.length_cons]
            omega

theorem runFiles_eq_processFiles (cfg : Config) (dec : Decoder) :
    ∀ (files : List String) (numSkipped : Int) (fs : FS) (tested : Nat),
      runFiles cfg dec files numSkipped fs tested
        = processFiles cfg dec (files.drop (cfg.skip - numSkipped).toNat) fs tested := by
  intro files
  induction files with
  | nil => intro numSkipped fs tested; simp [runFiles, processFiles]
  | cons filePath rest ih =>
    intro numSkipped fs tested
    by_cases hle : cfg.skip ≤ numSkipped
    · have hz : (cfg.skip - numSkipped).toNat = 0 := Int.toNat_of_nonpos (by omega)
      rw [hz, List.drop_zero]
      simp only [runFiles, if_pos hle, processFiles]
      cases hd : decodeFile cfg dec fs filePath tested with
      | error e => rfl
      | ok triple =>
        obtain ⟨same, fs1, tested1⟩ := triple
        have ih0 := ih numSkipped fs1 tested1
        rw [hz, List.drop_zero] at ih0
        dsimp only
        rw [ih0]
    · have hlt : numSkipped < cfg.skip := by omega
      have hsucc : (cfg.skip - numSkipped).toNat
          = (cfg.skip - (numSkipped + 1)).toNat + 1 := by omega
      rw [hsucc, List.drop_succ_cons]
      simp only [runFiles, if_neg hle]
      exact ih (numSkipped + 1) fs tested

theorem testFilesInDir_eq_processFiles (cfg : Config) (dec : Decoder)
    (walk : List (String × String)) (fs : FS) :
    testFilesInDir cfg dec walk fs
      = processFiles cfg dec ((listSourceFiles cfg walk).drop cfg.skip.toNat) fs 0 := by
  unfold testFilesInDir
  rw [runFiles_eq_processFiles, Int.sub_zero]

theorem processFiles_config_skip (cfg : Config) (dec : Decoder) (k : Int) :
    ∀ (files : List String) (fs : FS) (tested : Nat),
      processFiles { cfg with skip := k } dec files fs tested
        = processFiles cfg dec files fs tested := by
  intro files
  induction files with
  | nil => intro fs tested; rfl
  | cons filePath rest ih =>
    intro fs tested
    have hdec : decodeFile { cfg with skip := k } dec fs filePath tested
        = decodeFile cfg dec fs filePath tested := rfl
    simp only [processFiles, hdec]
    cases hd : decodeFile cfg dec fs filePath tested with
    | error e => rfl
    | ok triple =>
      obtain ⟨same, fs1, tested1⟩ := triple
      dsimp only
      rw [ih fs1 tested1]

/-! ### The claims -/

/-- C1 (amended): for every completed run, every non-skipped discovered candidate is
placed in exactly one of the two result sets (the two sets together are a permutation
of the non-skipped discovered files), and `len(perfect) + len(differing)` equals the
number of discovered files minus the number of files actually skipped, namely
`min(max(skip, 0), filesDiscovered)`. -/
theorem claim_C1 (cfg : Config) (dec : Decoder) (walk : List (String × String)) (fs : FS)
    (perfectFiles filesWithDifferences : List String) (fs' : FS) (tested : Nat)
    (hrun : testFilesInDir cfg dec walk fs
      = Except.ok (perfectFiles, filesWithDifferences, fs', tested)) :
    (perfectFiles ++ filesWithDifferences).Perm
        ((listSourceFiles cfg walk).drop cfg.skip.toNat) ∧
    perfectFiles.length + filesWithDifferences.length
      = (listSourceFiles cfg walk).length
        - min cfg.skip.toNat (listSourceFiles cfg walk).length := by
  rw [testFilesInDir_eq_processFiles] at hrun
  obtain ⟨hperm, _⟩ := processFiles_ok_inv cfg dec _ fs 0 _ _ _ _ hrun
  refine ⟨hperm, ?_⟩
  have hlen := hperm.length_eq
  rw [List.length_append, List.length_drop] at hlen
  omega

/-- Witness for C1 at a concrete completed run with one discovered file and skip 0. -/
theorem claim_C1_witness :
    (["/t/a.TiVo"] ++ ([] : List String)).Perm
        ((listSourceFiles defaultConfig [("/t", "a.TiVo")]).drop defaultConfig.skip.toNat) ∧
    (["/t/a.TiVo"] : List String).length + ([] : List String).length
      = (listSourceFiles defaultConfig [("/t", "a.TiVo")]).length
        - min defaultConfig.skip.toNat (listSourceFiles defaultConfig [("/t", "a.TiVo")]).length :=
  claim_C1 defaultConfig (fun _ _ => some 5) [("/t", "a.TiVo")] [("/t/a.ref.mpg", 5)]
    ["/t/a.TiVo"] [] [("/t/a.ref.mpg", 5)] 1 rfl

/-- Counterexample to C1 as stated: with skip = 1 and no discovered files the run
completes with both sets empty, yet `0 + 0 ≠ filesDiscovered - skipCount = 0 - 1`. -/
theorem claim_C1_counterexample :
    testFilesInDir { defaultConfig with skip := 1 } (fun _ _ => some 0) [] []
        = Except.ok ([], [], [], 0) ∧
    ¬ ((([] : List String).length + ([] : List String).length : Int)
        = ((listSourceFiles { defaultConfig with skip := 1 } []).length : Int)
          - ({ defaultConfig with skip := 1 } : Config).skip) :=
  ⟨rfl, by decide⟩

/-- C2 (code bug): when the decoder produces no output file, the external comparison
does report a non-zero result ("different"), but the unconditional cleanup
`os.remove(outputPath)` then raises an uncaught `FileNotFoundError`: the per-file
cycle aborts (`Except.error`), the candidate is never recorded in the differing set,
and the whole run aborts instead of continuing with the next candidate. -/
theorem claim_C2 :
    decodeFile defaultConfig (fun _ _ => none) [("a.TiVo", 7), ("a.ref.mpg", 3)] "a.TiVo" 0
        = Except.error () ∧
    testFilesInDir defaultConfig (fun _ _ => none) [("/t", "a.TiVo")]
        [("/t/a.TiVo", 7), ("/t/a.ref.mpg", 3)]
        = Except.error () ∧
    diffReturncode
        (fsAfterDecode defaultConfig (fun _ _ => none) [("a.TiVo", 7), ("a.ref.mpg", 3)] "a.TiVo")
        (outputPathOf defaultConfig "a.TiVo") (referencePathOf defaultConfig "a.TiVo") ≠ 0 :=
  ⟨rfl, rfl, by decide⟩

/-- C3 (amended): the code derives the output path with Python `str.replace`, which
replaces every occurrence of the source extension, not only the trailing one; when
the source extension occurs in the candidate path only as its trailing suffix (and
likewise the output extension in the output path), the derived paths coincide with
trailing-extension replacement and no other part of the path is altered. -/
theorem claim_C3 (cfg : Config) (stem : List Char)
    (h1 : cfg.sourceExtension.data ≠ [])
    (h2 : ∀ i, i < stem.length →
      cfg.sourceExtension.data.isPrefixOf
        ((stem ++ cfg.sourceExtension.data).drop i) = false)
    (h3 : cfg.ourExtension.data ≠ [])
    (h4 : ∀ i, i < stem.length →
      cfg.ourExtension.data.isPrefixOf
        ((stem ++ cfg.ourExtension.data).drop i) = false) :
    outputPathOf cfg ⟨stem ++ cfg.sourceExtension.data⟩ = ⟨stem ++ cfg.ourExtension.data⟩ ∧
    referencePathOf cfg ⟨stem ++ cfg.sourceExtension.data⟩ = ⟨stem ++ cfg.refExtension.data⟩ := by
  have hout : outputPathOf cfg ⟨stem ++ cfg.sourceExtension.data⟩
      = ⟨stem ++ cfg.ourExtension.data⟩ := by
    unfold outputPathOf pyReplace
    exact congrArg String.mk (replaceFuel_append_suffix _ _ h1 stem _ le_rfl h2)
  refine ⟨hout, ?_⟩
  unfold referencePathOf
  rw [hout]
  unfold pyReplace
  exact congrArg String.mk (replaceFuel_append_suffix _ _ h3 stem _ le_rfl h4)

/-- Witness for C3 at the stem `"a"` with the default extensions. -/
theorem claim_C3_witness :
    defaultConfig.sourceExtension.data ≠ [] ∧
    defaultConfig.ourExtension.data ≠ [] ∧
    (outputPathOf defaultConfig ⟨['a'] ++ defaultConfig.sourceExtension.data⟩
        = ⟨['a'] ++ defaultConfig.ourExtension.data⟩ ∧
      referencePathOf defaultConfig ⟨['a'] ++ defaultConfig.sourceExtension.data⟩
        = ⟨['a'] ++ defaultConfig.refExtension.data⟩) :=
  ⟨by decide, by decide,
    claim_C3 defaultConfig ['a'] (by decide) (by decide) (by decide) (by decide)⟩

/-- Counterexample to C3 as stated: `a.TiVo.TiVo` is a valid candidate (non-hidden,
ends with `.TiVo`), but its derived output path is `a.mpg.mpg` — both occurrences of
the source extension were replaced — and not the trailing-replacement `a.TiVo.mpg`. -/
theorem claim_C3_counterexample :
    isTivoFile defaultConfig "a.TiVo.TiVo" = true ∧
    outputPathOf defaultConfig "a.TiVo.TiVo" = "a.mpg.mpg" ∧
    ¬ outputPathOf defaultConfig "a.TiVo.TiVo" = "a.TiVo.mpg" :=
  ⟨by decide, by decide, by decide⟩

/-- C4: discovery returns exactly the walked files whose name ends with the source
extension (suffix match) and whose base name does not start with `.`, joined onto
their directories; the result is sorted lexicographically by full path and is a
permutation of the accepted files (so nothing else is added or dropped). -/
theorem claim_C4 (cfg : Config) (walk : List (String × String))
    (hext : cfg.sourceExtension ≠ "") :
    (∀ p, p ∈ listSourceFiles cfg walk ↔
      ∃ e ∈ walk, pyEndswith e.2 cfg.sourceExtension = true ∧
        pyStartswith e.2 "." = false ∧ p = osPathJoin e.1 e.2) ∧
    (listSourceFiles cfg walk).Sorted (fun a b => strLe a b = true) ∧
    (listSourceFiles cfg walk).Perm
      ((walk.filter (fun e => isTivoFile cfg e.2)).map (fun e => osPathJoin e.1 e.2)) := by
  refine ⟨?_, sortStrings_sorted _, sortStrings_perm _⟩
  intro p
  unfold listSourceFiles
  rw [(sortStrings_perm _).mem_iff]
  simp only [List.mem_map, List.mem_filter, isTivoFile, Bool.and_eq_true, Bool.not_eq_true']
  constructor
  · rintro ⟨e, ⟨hmem, hstart, hend⟩, rfl⟩
    exact ⟨e, hmem, hend, hstart, rfl⟩
  · rintro ⟨e, hmem, hend, hstart, rfl⟩
    exact ⟨e, ⟨hmem, hstart, hend⟩, rfl⟩

/-- Witness for C4 on a walk with one matching, one hidden and one non-matching file. -/
theorem claim_C4_witness :
    defaultConfig.sourceExtension ≠ "" ∧
    ((∀ p, p ∈ listSourceFiles defaultConfig
          [("/t", "b.TiVo"), ("/t", ".h.TiVo"), ("/t", "c.txt")] ↔
      ∃ e ∈ [("/t", "b.TiVo"), ("/t", ".h.TiVo"), ("/t", "c.txt")],
        pyEndswith e.2 defaultConfig.sourceExtension = true ∧
        pyStartswith e.2 "." = false ∧ p = osPathJoin e.1 e.2) ∧
    (listSourceFiles defaultConfig
        [("/t", "b.TiVo"), ("/t", ".h.TiVo"), ("/t", "c.txt")]).Sorted
      (fun a b => strLe a b = true) ∧
    (listSourceFiles defaultConfig
        [("/t", "b.TiVo"), ("/t", ".h.TiVo"), ("/t", "c.txt")]).Perm
      (([("/t", "b.TiVo"), ("/t", ".h.TiVo"), ("/t", "c.txt")].filter
          (fun e => isTivoFile defaultConfig e.2)).map (fun e => osPathJoin e.1 e.2))) :=
  ⟨by decide,
    claim_C4 defaultConfig [("/t", "b.TiVo"), ("/t", ".h.TiVo"), ("/t", "c.txt")] (by decide)⟩

/-- C5: with a non-negative skip count N, the run equals processing (decode, compare,
record) of exactly the discovered list with its first N elements removed, so the
first N discovered files in discovery order are excluded from decoding, comparison
and the report; with skip = 0 every discovered file is processed, and with
skip ≥ filesDiscovered the run returns empty result sets and a zero tested count. -/
theorem claim_C5 (cfg : Config) (dec : Decoder) (walk : List (String × String)) (fs : FS)
    (hskip : 0 ≤ cfg.skip) :
    testFilesInDir cfg dec walk fs
        = processFiles cfg dec ((listSourceFiles cfg walk).drop cfg.skip.toNat) fs 0 ∧
    (cfg.skip = 0 →
      testFilesInDir cfg dec walk fs
        = processFiles cfg dec (listSourceFiles cfg walk) fs 0) ∧
    (((listSourceFiles cfg walk).length : Int) ≤ cfg.skip →
      testFilesInDir cfg dec walk fs = Except.ok ([], [], fs, 0)) := by
  refine ⟨testFilesInDir_eq_processFiles cfg dec walk fs, ?_, ?_⟩
  · intro h0
    rw [testFilesInDir_eq_processFiles, h0]
    rfl
  · intro hlen
    rw [testFilesInDir_eq_processFiles,
      List.drop_eq_nil_of_le (by omega : (listSourceFiles cfg walk).length ≤ cfg.skip.toNat)]
    rfl

/-- Witness for C5 at a concrete configuration with skip 0 and one discovered file. -/
theorem claim_C5_witness :
    0 ≤ defaultConfig.skip ∧
    (testFilesInDir defaultConfig (fun _ _ => some 5) [("/t", "a.TiVo")] [("/t/a.ref.mpg", 5)]
        = processFiles defaultConfig (fun _ _ => some 5)
            ((listSourceFiles defaultConfig [("/t", "a.TiVo")]).drop defaultConfig.skip.toNat)
            [("/t/a.ref.mpg", 5)] 0 ∧
    (defaultConfig.skip = 0 →
      testFilesInDir defaultConfig (fun _ _ => some 5) [("/t", "a.TiVo")] [("/t/a.ref.mpg", 5)]
        = processFiles defaultConfig (fun _ _ => some 5)
            (listSourceFiles defaultConfig [("/t", "a.TiVo")]) [("/t/a.ref.mpg", 5)] 0) ∧
    (((listSourceFiles defaultConfig [("/t", "a.TiVo")]).length : Int) ≤ defaultConfig.skip →
      testFilesInDir defaultConfig (fun _ _ => some 5) [("/t", "a.TiVo")] [("/t/a.ref.mpg", 5)]
        = Except.ok ([], [], [("/t/a.ref.mpg", 5)], 0))) :=
  ⟨by decide,
    claim_C5 defaultConfig (fun _ _ => some 5) [("/t", "a.TiVo")] [("/t/a.ref.mpg", 5)]
      (by decide)⟩

/-- C6: the pre-step of the per-file cycle deletes any file already present at the
derived output path before the decoder is invoked (the filesystem handed to the
decoder has no file there), so the comparison sees at the output path exactly what
the decoder wrote in this cycle — never a stale pre-existing file. -/
theorem claim_C6 (cfg : Config) (dec : Decoder) (fs : FS) (inputPath : String) :
    lookupFS (fsBeforeDecode cfg fs inputPath) (outputPathOf cfg inputPath) = none ∧
    lookupFS (fsAfterDecode cfg dec fs inputPath) (outputPathOf cfg inputPath)
      = dec inputPath (outputPathOf cfg inputPath) :=
  ⟨lookupFS_fsBeforeDecode cfg fs inputPath, lookupFS_fsAfterDecode cfg dec fs inputPath⟩

/-- C7: in every per-file cycle that completes, the `filesAreSame` boolean is true
iff the external byte comparison returned a zero result, and the comparison returns
zero iff both files exist with identical content — so any non-zero result, including
a missing file, classifies the candidate as different. -/
theorem claim_C7 (cfg : Config) (dec : Decoder) (fs : FS) (inputPath : String)
    (tested : Nat) (same : Bool) (fs' : FS) (t' : Nat)
    (hok : decodeFile cfg dec fs inputPath tested = Except.ok (same, fs', t')) :
    (same = true ↔
      diffReturncode (fsAfterDecode cfg dec fs inputPath)
        (outputPathOf cfg inputPath) (referencePathOf cfg inputPath) = 0) ∧
    (∀ (fsx : FS) (a b : String),
      diffReturncode fsx a b = 0 ↔
        ∃ c, lookupFS fsx a = some c ∧ lookupFS fsx b = some c) := by
  constructor
  · have hb := (decodeFile_ok_inv hok).2
    by_cases hret : diffReturncode (fsAfterDecode cfg dec fs inputPath)
        (outputPathOf cfg inputPath) (referencePathOf cfg inputPath) = 0
    · rw [if_neg (fun h => h hret)] at hb
      simp [hb, hret]
    · rw [if_pos hret] at hb
      simp [hb, hret]
  · intro fsx a b
    unfold diffReturncode
    cases ha : lookupFS fsx a with
    | none => simp
    | some ca =>
      cases hbv : lookupFS fsx b with
      | none => simp
      | some cb =>
        by_cases hc : ca = cb
        · subst hc
          simp
        · simp only [if_neg hc]
          constructor
          · intro h10
            exact absurd h10 one_ne_zero
          · rintro ⟨c, hca, hcb⟩
            injection hca with hca
            injection hcb with hcb
            exact absurd (hca.trans hcb.symm) hc

/-- Witness for C7 at a cycle where the decoder output matches the reference. -/
theorem claim_C7_witness :
    (true = true ↔
      diffReturncode
          (fsAfterDecode defaultConfig (fun _ _ => some 3) [("a.ref.mpg", 3)] "a.TiVo")
          (outputPathOf defaultConfig "a.TiVo") (referencePathOf defaultConfig "a.TiVo") = 0) ∧
    (∀ (fsx : FS) (a b : String),
      diffReturncode fsx a b = 0 ↔
        ∃ c, lookupFS fsx a = some c ∧ lookupFS fsx b = some c) :=
  claim_C7 defaultConfig (fun _ _ => some 3) [("a.ref.mpg", 3)] "a.TiVo" 0 true
    [("a.ref.mpg", 3)] 1 rfl

/-- Helper: for a non-empty list, the code's plural form `if len > 1 then "s" else ""`
agrees with the claim's "singular exactly when the count is 1". -/
theorem plural_suffix_eq (n : Nat) (h : 0 < n) :
    (if n > 1 then "s" else "") = (if n = 1 then "" else "s") := by
  rcases Nat.lt_or_ge n 2 with h2 | h2
  · have h1 : n = 1 := by omega
    simp [h1]
  · have h1 : n > 1 := by omega
    have hne : ¬ n = 1 := by omega
    simp [h1, hne]

/-- C8: the final report prints, for each non-empty result set, a header naming the
count (singular form exactly when the count is 1) followed by every member path in
processing order and the closing color reset; an empty set contributes nothing, and
with both sets empty nothing at all is printed. -/
theorem claim_C8 (perfectFiles filesWithDifferences : List String) :
    (perfectFiles = [] ∧ filesWithDifferences = [] →
      printResults perfectFiles filesWithDifferences = []) ∧
    (perfectFiles = [] →
      printResults perfectFiles filesWithDifferences = printResults [] filesWithDifferences) ∧
    (filesWithDifferences = [] →
      printResults perfectFiles filesWithDifferences = printResults perfectFiles []) ∧
    (perfectFiles ≠ [] →
      printResults perfectFiles filesWithDifferences
        = (("\nPerfectly decoded " ++ commaFormat perfectFiles.length ++ " file" ++
              (if perfectFiles.length = 1 then "" else "s") ++ ":" ++ OKGREEN)
            :: (perfectFiles.map (fun filePath => "\t" ++ filePath) ++ [ENDC]))
          ++ printResults [] filesWithDifferences) ∧
    (filesWithDifferences ≠ [] →
      printResults perfectFiles filesWithDifferences
        = printResults perfectFiles []
          ++ (("Need to fix " ++ commaFormat filesWithDifferences.length ++ " file" ++
                (if filesWithDifferences.length = 1 then "" else "s") ++ ":" ++ FAIL)
              :: (filesWithDifferences.map (fun filePath => "\t" ++ filePath) ++ [ENDC]))) := by
  refine ⟨?_, ?_, ?_, ?_, ?_⟩
  · rintro ⟨rfl, rfl⟩
    rfl
  · rintro rfl
    rfl
  · rintro rfl
    rfl
  · intro hp
    have hp' : perfectFiles.isEmpty = false := by simp [List.isEmpty_iff, hp]
    unfold printResults
    rw [hp']
    rw [plural_suffix_eq _ (List.length_pos.2 hp)]
    simp only [Bool.false_eq_true, if_false, List.isEmpty_nil, eq_self_iff_true, if_true,
      List.nil_append]
  · intro hd
    have hd' : filesWithDifferences.isEmpty = false := by simp [List.isEmpty_iff, hd]
    unfold printResults
    rw [hd']
    rw [plural_suffix_eq _ (List.length_pos.2 hd)]
    simp only [Bool.false_eq_true, if_false, List.isEmpty_nil, eq_self_iff_true, if_true,
      List.append_nil]

/-- Witness for C8 at a report with one perfectly decoded file and none differing. -/
theorem claim_C8_witness :
    printResults ["x"] []
      = (("\nPerfectly decoded " ++ commaFormat (["x"] : List String).length ++ " file" ++
            (if (["x"] : List String).length = 1 then "" else "s") ++ ":" ++ OKGREEN)
          :: ((["x"] : List String).map (fun filePath => "\t" ++ filePath) ++ [ENDC]))
        ++ printResults [] [] :=
  (claim_C8 ["x"] []).2.2.2.1 (by decide)

/-- C9: discovery sorts, so the run is insensitive to the enumeration order of the
directory walk: two runs over the same tree (walk enumerations that are permutations
of each other), with the same configuration, filesystem and deterministic decoder
and comparator, produce the same discovery order and the same partition into
perfect and differing sets. -/
theorem claim_C9 (cfg : Config) (dec : Decoder) (fs : FS)
    (walk1 walk2 : List (String × String)) (hperm : walk1.Perm walk2) :
    listSourceFiles cfg walk1 = listSourceFiles cfg walk2 ∧
    testFilesInDir cfg dec walk1 fs = testFilesInDir cfg dec walk2 fs := by
  have hdisc : listSourceFiles cfg walk1 = listSourceFiles cfg walk2 := by
    unfold listSourceFiles
    exact sortStrings_eq_of_perm ((hperm.filter _).map _)
  refine ⟨hdisc, ?_⟩
  unfold testFilesInDir
  rw [hdisc]

/-- Witness for C9 at two opposite walk enumerations of the same two files. -/
theorem claim_C9_witness :
    ([("/t", "b.TiVo"), ("/t", "a.TiVo")] : List (String × String)).Perm
        [("/t", "a.TiVo"), ("/t", "b.TiVo")] ∧
    (listSourceFiles defaultConfig [("/t", "b.TiVo"), ("/t", "a.TiVo")]
        = listSourceFiles defaultConfig [("/t", "a.TiVo"), ("/t", "b.TiVo")] ∧
      testFilesInDir defaultConfig (fun _ _ => some 5)
          [("/t", "b.TiVo"), ("/t", "a.TiVo")] [("/t/a.ref.mpg", 5)]
        = testFilesInDir defaultConfig (fun _ _ => some 5)
            [("/t", "a.TiVo"), ("/t", "b.TiVo")] [("/t/a.ref.mpg", 5)]) :=
  ⟨by decide,
    claim_C9 defaultConfig (fun _ _ => some 5) [("/t/a.ref.mpg", 5)]
      [("/t", "b.TiVo"), ("/t", "a.TiVo")] [("/t", "a.TiVo"), ("/t", "b.TiVo")] (by decide)⟩

/-- C10: a negative skip count behaves exactly like skip = 0: the loop guard
`numSkipped >= skip` is immediately true, so no discovered candidate is skipped and
the whole run coincides with the run configured with skip = 0. -/
theorem claim_C10 (cfg : Config) (dec : Decoder) (walk : List (String × String)) (fs : FS)
    (hneg : cfg.skip < 0) :
    testFilesInDir cfg dec walk fs = testFilesInDir { cfg with skip := 0 } dec walk fs := by
  rw [testFilesInDir_eq_processFiles, testFilesInDir_eq_processFiles,
    processFiles_config_skip cfg dec 0]
  rw [Int.toNat_of_nonpos (by omega : cfg.skip ≤ 0)]
  rfl

/-- Witness for C10 at skip = -1. -/
theorem claim_C10_witness :
    ({ defaultConfig with skip := -1 } : Config).skip < 0 ∧
    testFilesInDir { defaultConfig with skip := -1 } (fun _ _ => some 5)
        [("/t", "a.TiVo")] [("/t/a.ref.mpg", 5)]
      = testFilesInDir { { defaultConfig with skip := -1 } with skip := 0 }
          (fun _ _ => some 5) [("/t", "a.TiVo")] [("/t/a.ref.mpg", 5)] :=
  ⟨by decide,
    claim_C10 { defaultConfig with skip := -1 } (fun _ _ => some 5)
      [("/t", "a.TiVo")] [("/t/a.ref.mpg", 5)] (by decide)⟩

end BatchTest
